import Mathlib

/-!
Verification of the storage facade in `Lib/ufoLib/filesystem.py` (class
`FileSystem` plus the `_NOFS` fallback backend).

The embedding models the backing store of a bundle as a finite tree of
named entries.  Logical paths are lists of path components: the source
manipulates forward-slash strings through `fs.path.join` / `fs.path.split`
/ `fs.path.dirname`, which on the normalized, relative paths the facade
produces correspond exactly to appending a component, splitting off the
last component and dropping the last component of the component list.
Byte strings are lists of numbers.  Python exceptions are modelled by an
`Except` result with one error constructor per `raise` site; errors raised
inside the external `fs` backend library are collapsed into a single
`backendError` constructor (no claim distinguishes them).

The primary backend is the external `fs` library (`OSFS` / `ZipFS`), whose
documented semantics the backend primitives below follow; the degraded
`_NOFS` fallback (used when the `fs` module is not importable) is modelled
separately where a claim is about it.
-/

set_option autoImplicit false

namespace Ufo

/-- A byte string, as a list of byte values. -/
abbrev Bytes := List Nat

/-- A forward-slash path, as its list of components. -/
abbrev Path := List String

mutual

/-- A node of the backing store: a file with contents, or a directory. -/
inductive Node where
  | file (data : Bytes)
  | dir (entries : EntryList)

/-- The ordered named entries of a directory. -/
inductive EntryList where
  | nil
  | cons (name : String) (node : Node) (rest : EntryList)

end

/-- Look up a directory entry by name. -/
def findEntry : EntryList → String → Option Node
  | .nil, _ => none
  | .cons name node rest, c => if name = c then some node else findEntry rest c

/-- Replace the entry named `c` (or append it if absent). -/
def setEntry : EntryList → String → Node → EntryList
  | .nil, c, n => .cons c n .nil
  | .cons name node rest, c, n =>
      if name = c then .cons name n rest else .cons name node (setEntry rest c n)

/-- Delete the entry named `c`, if present. -/
def removeEntry : EntryList → String → EntryList
  | .nil, _ => .nil
  | .cons name node rest, c =>
      if name = c then rest else .cons name node (removeEntry rest c)

/-- The names of a directory's entries, in order (backend `listdir`). -/
def entryNames : EntryList → List String
  | .nil => []
  | .cons name _ rest => name :: entryNames rest

/-- Resolve a path to the node it denotes, if any. -/
def lookup : Node → Path → Option Node
  | n, [] => some n
  | .file _, _ :: _ => none
  | .dir es, c :: rest =>
      match findEntry es c with
      | some child => lookup child rest
      | none => none

/-- Delete the node at a (nonempty, existing) path.  `none` when the path
does not resolve; deleting a directory deletes its whole subtree, which is
the behaviour of `removedir(..., force=True)` in the fs backend. -/
def deleteAt : Node → Path → Option Node
  | _, [] => none
  | .file _, _ :: _ => none
  | .dir es, [c] =>
      match findEntry es c with
      | some _ => some (.dir (removeEntry es c))
      | none => none
  | .dir es, c :: rest =>
      match findEntry es c with
      | some child =>
          match deleteAt child rest with
          | some child2 => some (.dir (setEntry es c child2))
          | none => none
      | none => none

/-- Backend open-for-write plus write plus close: store `data` at the path.
The parent must exist as a directory and the path itself must not be a
directory (otherwise the backend raises). -/
def writeFileAt : Node → Path → Bytes → Option Node
  | _, [], _ => none
  | .file _, _ :: _, _ => none
  | .dir es, [c], d =>
      match findEntry es c with
      | some (.dir _) => none
      | _ => some (.dir (setEntry es c (.file d)))
  | .dir es, c :: rest, d =>
      match findEntry es c with
      | some child =>
          match writeFileAt child rest d with
          | some child2 => some (.dir (setEntry es c child2))
          | none => none
      | none => none

/-- Backend `makedir`: create a single directory.  The parent must exist as
a directory and the destination must not exist. -/
def makedirAt : Node → Path → Option Node
  | _, [] => none
  | .file _, _ :: _ => none
  | .dir es, [c] =>
      match findEntry es c with
      | some _ => none
      | none => some (.dir (setEntry es c (.dir .nil)))
  | .dir es, c :: rest =>
      match findEntry es c with
      | some child =>
          match makedirAt child rest with
          | some child2 => some (.dir (setEntry es c child2))
          | none => none
      | none => none

/-- Insert a node at a path whose parent exists and which is itself absent
(the destination side of the backend `move` / `movedir`). -/
def insertAt : Node → Path → Node → Option Node
  | _, [], _ => none
  | .file _, _ :: _, _ => none
  | .dir es, [c], n =>
      match findEntry es c with
      | some _ => none
      | none => some (.dir (setEntry es c n))
  | .dir es, c :: rest, n =>
      match findEntry es c with
      | some child =>
          match insertAt child rest n with
          | some child2 => some (.dir (setEntry es c child2))
          | none => none
      | none => none

/-- The errors the facade can surface.  One constructor per `raise` site of
`filesystem.py` that the claims mention; `backendError` stands for any
exception raised inside the backing fs library, and `attributeError` /
`typeError` for the Python `AttributeError` / `TypeError` the broken
`_NOFS` fallback methods raise. -/
inductive Err where
  | multipleRoots
  | isADirectory (p : Path)
  | maxRecursionDepth
  | fileDoesNotExist (p : Path)
  | moveSourceDoesNotExist (p : Path)
  | moveDestinationExists (p : Path)
  | missingRequiredFile (p : Path)
  | couldNotRead (p : Path)
  | couldNotWrite (p : Path)
  | attributeError
  | typeError
  | backendError
deriving DecidableEq

/-- An open bundle: the optional archive root name (`FileSystem._root`) and
the backing store (the state behind `FileSystem._fs`). -/
structure Handle where
  root : Option String
  tree : Node

/-- `FileSystem._fsRootPath`: prefix the root name, when one is set. -/
def _fsRootPath (h : Handle) (p : Path) : Path :=
  match h.root with
  | none => p
  | some r => r :: p

/-- Resolve a logical path against the backing store. -/
def lookupH (h : Handle) (p : Path) : Option Node :=
  lookup h.tree (_fsRootPath h p)

/-- `FileSystem.exists` (via `_fsExists`). -/
def existsPath (h : Handle) (p : Path) : Bool :=
  (lookupH h p).isSome

/-- `FileSystem.isDirectory` (via `_fsIsDirectory`). -/
def isDirectory (h : Handle) (p : Path) : Bool :=
  match lookupH h p with
  | some (.dir _) => true
  | _ => false

/-- `FileSystem._fsListDirectory`: the entry names at a directory path. -/
def _fsListDirectory (h : Handle) (p : Path) : Except Err (List String) :=
  match lookupH h p with
  | some (.dir es) => .ok (entryNames es)
  | _ => .error .backendError

/-- `FileSystem._fsRemove`: backend removal of a file. -/
def _fsRemove (h : Handle) (p : Path) : Except Err Handle :=
  match lookupH h p with
  | some (.file _) =>
      match deleteAt h.tree (_fsRootPath h p) with
      | some t => .ok { h with tree := t }
      | none => .error .backendError
  | _ => .error .backendError

/-- `FileSystem._fsRemoveDirectory`: backend `removedir(path, force=True)`,
which removes the directory together with its contents. -/
def _fsRemoveDirectory (h : Handle) (p : Path) : Except Err Handle :=
  match lookupH h p with
  | some (.dir _) =>
      match deleteAt h.tree (_fsRootPath h p) with
      | some t => .ok { h with tree := t }
      | none => .error .backendError
  | _ => .error .backendError

/-- `FileSystem._fsMakeDirectory`: backend `makedir`. -/
def _fsMakeDirectory (h : Handle) (p : Path) : Except Err Handle :=
  match makedirAt h.tree (_fsRootPath h p) with
  | some t => .ok { h with tree := t }
  | none => .error .backendError

/-- `FileSystem._fsMove`: backend `move` / `movedir`.  Both primitives
relocate the node from `p1` to `p2`; the destination's parent must already
exist (the backend does not create it). -/
def _fsMove (h : Handle) (p1 p2 : Path) : Except Err Handle :=
  match lookupH h p1 with
  | some n =>
      match deleteAt h.tree (_fsRootPath h p1) with
      | some t1 =>
          match insertAt t1 (_fsRootPath h p2) n with
          | some t2 => .ok { h with tree := t2 }
          | none => .error .backendError
      | none => .error .backendError
  | none => .error .backendError

/-- `FileSystem.makeDirectory`. -/
def makeDirectory (h : Handle) (p : Path) : Except Err Handle :=
  if existsPath h p then .ok h else _fsMakeDirectory h p

/-- The loop of `FileSystem._buildDirectoryTree`: create each ancestor
prefix in turn (outermost first), skipping the ones that already exist. -/
def buildDirs : Handle → List String → Path → Except Err Handle
  | h, [], _ => .ok h
  | h, d :: rest, built =>
      match makeDirectory h (built ++ [d]) with
      | .ok h2 => buildDirs h2 rest (built ++ [d])
      | .error e => .error e

/-- `FileSystem._buildDirectoryTree`: the directory components of `p`,
gathered outermost to innermost, are created one by one. -/
def _buildDirectoryTree (h : Handle) (p : Path) : Except Err Handle :=
  buildDirs h p.dropLast []

/-- `FileSystem.open` with mode `r` / `rb` (an encoding merely switches
`r` to `rb`), composed with reading the whole stream: `None` when the
path does not exist, the file's bytes otherwise. -/
def openForRead (h : Handle) (p : Path) : Except Err (Option Bytes) :=
  if existsPath h p = false then .ok none
  else if isDirectory h p then .error (.isADirectory p)
  else
    match lookupH h p with
    | some (.file d) => .ok (some d)
    | _ => .error .backendError

/-- `FileSystem.open` with mode `w` / `wb`, composed with writing `data`
and closing: checks the directory guard, builds the ancestor chain, then
stores the bytes. -/
def openForWrite (h : Handle) (p : Path) (data : Bytes) : Except Err Handle :=
  if existsPath h p && isDirectory h p then .error (.isADirectory p)
  else
    match _buildDirectoryTree h p with
    | .ok h2 =>
        match writeFileAt h2.tree (_fsRootPath h2 p) data with
        | some t => .ok { h2 with tree := t }
        | none => .error .backendError
    | .error e => .error e

/-- `FileSystem.readBytesFromPath`: open for binary read and read all. -/
def readBytesFromPath (h : Handle) (p : Path) : Except Err (Option Bytes) :=
  openForRead h p

/-- The `if data:` tail of `FileSystem._writeFileAtomically`: empty byte
strings are falsy, so an empty write writes nothing at all. -/
def writeIfNonEmpty (h : Handle) (data : Bytes) (p : Path) : Except Err Handle :=
  if data = [] then .ok h else openForWrite h p data

/-- `FileSystem._writeFileAtomically`: if the file exists its current
bytes are compared with `data` and an identical write is skipped; then
nothing is written when `data` is empty. -/
def _writeFileAtomically (h : Handle) (data : Bytes) (p : Path) : Except Err Handle :=
  if existsPath h p then
    match openForRead h p with
    | .ok (some oldData) =>
        if data = oldData then .ok h else writeIfNonEmpty h data p
    | .ok none => .error .backendError
    | .error e => .error e
  else writeIfNonEmpty h data p

/-- `FileSystem.writeBytesToPath` (no encoding). -/
def writeBytesToPath (h : Handle) (p : Path) (data : Bytes) : Except Err Handle :=
  _writeFileAtomically h data p

/-- Whether a node is a directory. -/
def isDirNode : Node → Bool
  | .dir _ => true
  | .file _ => false

mutual

/-- `FileSystem._listDirectory`, at the node the current absolute path
resolves to.  The source passes absolute paths and re-reads the store,
which does not change during the walk, at every step; structurally that
is a walk of the subtree.  `path` is the absolute logical path of `n` and
`relTo` the original listing root: the source strips the string prefix
`relativeTo + "/"` from each file path, which on component lists is
dropping `relTo.length` components. -/
def _listDirectory (recurse : Bool) (maxDepth : Nat) :
    Node → Path → Path → Nat → Except Err (List Path)
  | n, path, relTo, depth =>
    if maxDepth < depth then .error .maxRecursionDepth
    else
      match n with
      | .file _ => .error .backendError
      | .dir es => _listDirectoryEntries recurse maxDepth es path relTo depth

/-- The `for fileName in self._fsListDirectory(path)` loop of
`_listDirectory`: recurse into directories when asked, collect the
stripped path otherwise. -/
def _listDirectoryEntries (recurse : Bool) (maxDepth : Nat) :
    EntryList → Path → Path → Nat → Except Err (List Path)
  | .nil, _, _, _ => .ok []
  | .cons name child rest, path, relTo, depth =>
      match (if isDirNode child && recurse then
               _listDirectory recurse maxDepth child (path ++ [name]) relTo (depth + 1)
             else .ok [(path ++ [name]).drop relTo.length]) with
      | .ok here =>
          match _listDirectoryEntries recurse maxDepth rest path relTo depth with
          | .ok more => .ok (here ++ more)
          | .error e => .error e
      | .error e => .error e

end

/-- `FileSystem.listDirectory`: list the children of `p`; with `recurse`
set, descend into subdirectories and return file paths relative to `p`.
The source fixes `maxDepth` at 100. -/
def listDirectory (h : Handle) (p : Path) (recurse : Bool) : Except Err (List Path) :=
  match lookupH h p with
  | some n => _listDirectory recurse 100 n p p 0
  | none => .error .backendError

/-- `FileSystem._removeEmptyDirectoriesForPath`: walk upward removing each
ancestor directory that has become empty, stopping at the first ancestor
that is missing or non-empty; the walk also stops once the path runs out
(`if directory:` is false on the empty string), so the bundle root is
never removed. -/
def _removeEmptyDirectoriesForPath (h : Handle) (dir : Path) : Except Err Handle :=
  if existsPath h dir = false then .ok h
  else
    match _fsListDirectory h dir with
    | .error e => .error e
    | .ok names =>
        if names.length = 0 then
          match _fsRemoveDirectory h dir with
          | .error e => .error e
          | .ok h2 =>
              if hne : dir.dropLast = [] then .ok h2
              else _removeEmptyDirectoriesForPath h2 dir.dropLast
        else .ok h
termination_by dir.length
decreasing_by
  have hd : dir ≠ [] := fun hd => hne (by simp [hd])
  have := List.length_pos.mpr hd
  simp only [List.length_dropLast]
  omega

/-- The unconditional tail of `FileSystem._removeFileForPath`:
`directory = self.directoryName(path); if directory:
self._removeEmptyDirectoriesForPath(directory)`. -/
def pruneParent (h : Handle) (p : Path) : Except Err Handle :=
  if p.dropLast = [] then .ok h else _removeEmptyDirectoriesForPath h p.dropLast

/-- `FileSystem._removeFileForPath`. -/
def _removeFileForPath (h : Handle) (p : Path) (raiseErrorIfMissing : Bool) :
    Except Err Handle :=
  if existsPath h p = false then
    if raiseErrorIfMissing then .error (.fileDoesNotExist p)
    else pruneParent h p
  else
    match (if isDirectory h p then _fsRemoveDirectory h p else _fsRemove h p) with
    | .ok h2 => pruneParent h2 p
    | .error e => .error e

/-- `FileSystem.remove`: no-op when the path does not exist, otherwise
remove it and prune emptied ancestors. -/
def remove (h : Handle) (p : Path) : Except Err Handle :=
  if existsPath h p = false then .ok h
  else _removeFileForPath h p true

/-- `FileSystem.move` (with the fs module present, so that the backend
`move` / `movedir` primitives exist and behave as documented). -/
def move (h : Handle) (p1 p2 : Path) : Except Err Handle :=
  if existsPath h p1 = false then .error (.moveSourceDoesNotExist p1)
  else if existsPath h p2 then .error (.moveDestinationExists p2)
  else _fsMove h p1 p2

/-- `FileSystem.move` when the fs module is unavailable and `OSFS` is the
`_NOFS` fallback.  `_fsMove` dispatches on `isDirectory`: for a directory
`_NOFS.movedir` (`shutil.move`) relocates it, but for a file `_NOFS.move`
calls `os.move` — a function that exists in no Python version — so the
call raises `AttributeError` before anything is relocated. -/
def moveWithoutFSModule (h : Handle) (p1 p2 : Path) : Except Err Handle :=
  if existsPath h p1 = false then .error (.moveSourceDoesNotExist p1)
  else if existsPath h p2 then .error (.moveDestinationExists p2)
  else if isDirectory h p1 then _fsMove h p1 p2
  else .error .attributeError

/-- `FileSystem.readPlist`.  The external plist decoder is a parameter
(`none` meaning it raised); the blind `try/except` turns any failure
inside the `with` block, including a failure of `open` itself, into the
uniform could-not-read error naming the path. -/
def readPlist {V : Type} (decode : Bytes → Option V) (h : Handle) (p : Path)
    (default : Option V) : Except Err V :=
  if existsPath h p = false then
    match default with
    | some d => .ok d
    | none => .error (.missingRequiredFile p)
  else
    match openForRead h p with
    | .ok (some data) =>
        match decode data with
        | some v => .ok v
        | none => .error (.couldNotRead p)
    | _ => .error (.couldNotRead p)

/-- `FileSystem.writePlist`: encode into a memory buffer (any encoder
failure becomes the could-not-write error), then persist the bytes via
the change-detecting write. -/
def writePlist {V : Type} (encode : V → Option Bytes) (h : Handle) (p : Path)
    (v : V) : Except Err Handle :=
  match encode v with
  | some data => writeBytesToPath h p data
  | none => .error (.couldNotWrite p)

/-- The zip branch of `FileSystem.__init__`: after opening the archive,
`roots = path.listdir("")`; an archive with no entries gets the synthetic
root name "contents", one with several top-level entries is rejected, and
otherwise the single entry's name becomes the root name. -/
def openZip (archive : Node) : Except Err Handle :=
  match archive with
  | .file _ => .error .backendError
  | .dir es =>
      match entryNames es with
      | [] => .ok { root := some "contents", tree := archive }
      | [r] => .ok { root := some r, tree := archive }
      | _ :: _ :: _ => .error .multipleRoots

mutual

/-- Specification (claims C3 and C8): the paths of all files in a subtree,
relative to it and in listing order; directories contribute only their
descendants, never themselves. -/
def filePaths : Node → List Path
  | .file _ => []
  | .dir es => filePathsEntries es

/-- Entry-list part of `filePaths`. -/
def filePathsEntries : EntryList → List Path
  | .nil => []
  | .cons name child rest =>
      (match child with
       | .file _ => [[name]]
       | .dir _ => (filePaths child).map (fun q => name :: q)) ++
      filePathsEntries rest

end

mutual

/-- The directory-nesting depth of a subtree: the length of the longest
chain of nested directories strictly below the node. -/
def dirDepth : Node → Nat
  | .file _ => 0
  | .dir es => dirDepthEntries es

/-- Entry-list part of `dirDepth`. -/
def dirDepthEntries : EntryList → Nat
  | .nil => 0
  | .cons _ child rest => max (dirDepthStep child) (dirDepthEntries rest)

/-- The nesting contribution of a single child: a directory child adds one
level, a file child adds none. -/
def dirDepthStep : Node → Nat
  | .file _ => 0
  | .dir es => dirDepthEntries es + 1

end

/-- Specification (claim C4): walking upward from a directory path, remove
each ancestor that is now an empty directory, stopping at the first
ancestor that is not an empty directory; the bundle root (the empty
relative path) is never removed. -/
def pruneUpSpec (h : Handle) (dir : Path) : Handle :=
  if hnil : dir = [] then h
  else
    match lookupH h dir with
    | some (.dir .nil) =>
        match deleteAt h.tree (_fsRootPath h dir) with
        | some t => pruneUpSpec { h with tree := t } dir.dropLast
        | none => h
    | _ => h
termination_by dir.length
decreasing_by
  have := List.length_pos.mpr hnil
  simp only [List.length_dropLast]
  omega

/-- Specification (claim C4): `remove` does nothing when `p` is absent;
otherwise it deletes the node at `p` (a file, or a directory with its
whole subtree) and then prunes newly-emptied ancestors upward. -/
def removeSpec (h : Handle) (p : Path) : Handle :=
  if existsPath h p = false then h
  else
    match deleteAt h.tree (_fsRootPath h p) with
    | some t => pruneUpSpec { h with tree := t } p.dropLast
    | none => h

/-- A chain of `k` nested directories with a single file at the bottom. -/
def nest : Nat → Node
  | 0 => .dir (.cons "f" (.file [0]) .nil)
  | k + 1 => .dir (.cons "d" (nest k) .nil)

/-- A directory bundle with an empty backing store. -/
def emptyHandle : Handle := { root := none, tree := .dir .nil }

/-- The subtree `{a: file, b/c: file}` of claim C8. -/
def abcTree : Node :=
  .dir (.cons "a" (.file [1]) (.cons "b" (.dir (.cons "c" (.file [2]) .nil)) .nil))

/-- A directory bundle holding `abcTree` at `p`. -/
def abcHandle : Handle := { root := none, tree := .dir (.cons "p" abcTree .nil) }

/-- A directory bundle holding the `nest k` chain at `p`. -/
def nestHandle (k : Nat) : Handle := { root := none, tree := .dir (.cons "p" (nest k) .nil) }

/-- A directory bundle holding one file `a` with contents `[1]`. -/
def fileAHandle : Handle := { root := none, tree := .dir (.cons "a" (.file [1]) .nil) }

/-- A directory bundle with a two-level chain `a/b: file` plus a sibling
top-level file `d`, for exercising the remove-and-prune walk. -/
def pruneHandle : Handle :=
  { root := none
    tree := .dir (.cons "a" (.dir (.cons "b" (.file [1]) .nil)) (.cons "d" (.file [2]) .nil)) }

/-! ## Basic lemmas about the store primitives -/

theorem deleteAt_cons_cons (es : EntryList) (a : String) (q : Path) (hq : q ≠ []) :
    deleteAt (.dir es) (a :: q) =
      (match findEntry es a with
       | some child =>
           (match deleteAt child q with
            | some child2 => some (.dir (setEntry es a child2))
            | none => none)
       | none => none) := by
  cases q with
  | nil => exact absurd rfl hq
  | cons x xs => rfl

theorem writeFileAt_cons_cons (es : EntryList) (a : String) (q : Path) (hq : q ≠ [])
    (d : Bytes) :
    writeFileAt (.dir es) (a :: q) d =
      (match findEntry es a with
       | some child =>
           (match writeFileAt child q d with
            | some child2 => some (.dir (setEntry es a child2))
            | none => none)
       | none => none) := by
  cases q with
  | nil => exact absurd rfl hq
  | cons x xs => rfl

theorem makedirAt_cons_cons (es : EntryList) (a : String) (q : Path) (hq : q ≠ []) :
    makedirAt (.dir es) (a :: q) =
      (match findEntry es a with
       | some child =>
           (match makedirAt child q with
            | some child2 => some (.dir (setEntry es a child2))
            | none => none)
       | none => none) := by
  cases q with
  | nil => exact absurd rfl hq
  | cons x xs => rfl

theorem insertAt_cons_cons (es : EntryList) (a : String) (q : Path) (hq : q ≠ [])
    (n : Node) :
    insertAt (.dir es) (a :: q) n =
      (match findEntry es a with
       | some child =>
           (match insertAt child q n with
            | some child2 => some (.dir (setEntry es a child2))
            | none => none)
       | none => none) := by
  cases q with
  | nil => exact absurd rfl hq
  | cons x xs => rfl

theorem findEntry_setEntry_self : ∀ (es : EntryList) (c : String) (n : Node),
    findEntry (setEntry es c n) c = some n
  | .nil, c, n => by simp [setEntry, findEntry]
  | .cons name node rest, c, n => by
      by_cases hc : name = c
      · simp [setEntry, findEntry, hc]
      · simp only [setEntry, findEntry, hc, if_false]
        exact findEntry_setEntry_self rest c n

theorem existsPath_iff (h : Handle) (p : Path) :
    existsPath h p = true ↔ ∃ n, lookupH h p = some n := by
  simp [existsPath, Option.isSome_iff_exists]

theorem _fsRootPath_ne_nil (h : Handle) (p : Path) (hp : p ≠ []) :
    _fsRootPath h p ≠ [] := by
  cases hr : h.root <;> simp [_fsRootPath, hr, hp]

theorem _fsRootPath_dropLast (h : Handle) (p : Path) (hp : p ≠ []) :
    ∃ c, _fsRootPath h p = _fsRootPath h p.dropLast ++ [c] := by
  refine ⟨p.getLast hp, ?_⟩
  obtain ⟨root, tree⟩ := h
  cases root with
  | none => simp [_fsRootPath, List.dropLast_append_getLast]
  | some r =>
      simp only [_fsRootPath, List.cons_append]
      rw [List.dropLast_append_getLast]

theorem deleteAt_isSome (q : Path) (t : Node) (hq : q ≠ [])
    (hl : (lookup t q).isSome) : (deleteAt t q).isSome := by
  induction q generalizing t with
  | nil => exact absurd rfl hq
  | cons c rest ih =>
      cases t with
      | file d => simp [lookup] at hl
      | dir es =>
          cases hfe : findEntry es c with
          | none => simp [lookup, hfe] at hl
          | some child =>
              cases rest with
              | nil => simp [deleteAt, hfe]
              | cons b q2 =>
                  simp only [lookup, hfe] at hl
                  have hds := ih child (List.cons_ne_nil b q2) hl
                  rw [deleteAt_cons_cons es c (b :: q2) (List.cons_ne_nil b q2), hfe]
                  cases hd : deleteAt child (b :: q2) with
                  | none => rw [hd] at hds; simp at hds
                  | some t2 => simp [hd]

theorem lookup_deleteAt_parent (q : Path) (c : String) (t t2 : Node)
    (hd : deleteAt t (q ++ [c]) = some t2) :
    ∃ es2, lookup t2 q = some (.dir es2) := by
  induction q generalizing t t2 with
  | nil =>
      cases t with
      | file d => simp [deleteAt] at hd
      | dir es =>
          cases hfe : findEntry es c with
          | none => simp [List.nil_append, deleteAt, hfe] at hd
          | some child =>
              simp only [List.nil_append, deleteAt, hfe, Option.some.injEq] at hd
              exact ⟨removeEntry es c, by simp [← hd, lookup]⟩
  | cons a q2 ih =>
      cases t with
      | file d => simp [deleteAt] at hd
      | dir es =>
          rw [List.cons_append, deleteAt_cons_cons es a (q2 ++ [c]) (by simp)] at hd
          split at hd
          · rename_i child hfe
            split at hd
            · rename_i child2 hd2
              simp only [Option.some.injEq] at hd
              obtain ⟨es2, hes2⟩ := ih child child2 hd2
              refine ⟨es2, ?_⟩
              rw [← hd]
              show (match findEntry (setEntry es a child2) a with
                    | some child3 => lookup child3 q2
                    | none => none) = some (.dir es2)
              rw [findEntry_setEntry_self]
              exact hes2
            · simp at hd
          · simp at hd

theorem writeFileAt_lookup (q : Path) (t t2 : Node) (d : Bytes)
    (hw : writeFileAt t q d = some t2) : lookup t2 q = some (.file d) := by
  induction q generalizing t t2 with
  | nil => simp [writeFileAt] at hw
  | cons c rest ih =>
      cases t with
      | file b => simp [writeFileAt] at hw
      | dir es =>
          cases rest with
          | nil =>
              have hw2 : (match findEntry es c with
                          | some (.dir _) => (none : Option Node)
                          | _ => some (.dir (setEntry es c (.file d)))) = some t2 := hw
              cases hfe : findEntry es c with
              | none =>
                  rw [hfe] at hw2
                  simp only [Option.some.injEq] at hw2
                  rw [← hw2]
                  show (match findEntry (setEntry es c (.file d)) c with
                        | some child3 => lookup child3 []
                        | none => none) = some (.file d)
                  rw [findEntry_setEntry_self]
                  rfl
              | some child =>
                  cases child with
                  | dir es2 => rw [hfe] at hw2; simp at hw2
                  | file b2 =>
                      rw [hfe] at hw2
                      simp only [Option.some.injEq] at hw2
                      rw [← hw2]
                      show (match findEntry (setEntry es c (.file d)) c with
                            | some child3 => lookup child3 []
                            | none => none) = some (.file d)
                      rw [findEntry_setEntry_self]
                      rfl
          | cons b q2 =>
              rw [writeFileAt_cons_cons es c (b :: q2) (List.cons_ne_nil b q2) d] at hw
              split at hw
              · rename_i child hfe
                split at hw
                · rename_i child2 hw2
                  simp only [Option.some.injEq] at hw
                  rw [← hw]
                  show (match findEntry (setEntry es c child2) c with
                        | some child3 => lookup child3 (b :: q2)
                        | none => none) = some (.file d)
                  rw [findEntry_setEntry_self]
                  exact ih child child2 hw2
                · simp at hw
              · simp at hw



/-! ## Write/read lemmas -/

theorem openForWrite_read (h h2 : Handle) (p : Path) (d : Bytes)
    (hw : openForWrite h p d = .ok h2) : readBytesFromPath h2 p = .ok (some d) := by
  unfold openForWrite at hw
  split at hw
  · exact absurd hw (by simp)
  · split at hw
    · rename_i h3 hb
      split at hw
      · rename_i t hwf
        simp only [Except.ok.injEq] at hw
        have hl : lookup t (_fsRootPath { h3 with tree := t } p) = some (.file d) :=
          writeFileAt_lookup (_fsRootPath h3 p) h3.tree t d hwf
        rw [← hw]
        simp [readBytesFromPath, openForRead, existsPath, lookupH, isDirectory, hl]
      · exact absurd hw (by simp)
    · exact absurd hw (by simp)

/-! ## Recursive-listing lemmas -/

mutual

theorem listNode_ok (n : Node) (path relTo : Path) (depth : Nat)
    (hdir : isDirNode n = true) (hde : depth + dirDepth n ≤ 100) :
    _listDirectory true 100 n path relTo depth =
      .ok ((filePaths n).map (fun q => (path ++ q).drop relTo.length)) := by
  cases n with
  | file d => simp [isDirNode] at hdir
  | dir es =>
      have hd2 : depth + dirDepthEntries es ≤ 100 := hde
      have h1 : ¬ (100 < depth) := by omega
      unfold _listDirectory
      rw [if_neg h1]
      show _listDirectoryEntries true 100 es path relTo depth = _
      have h3 : filePaths (.dir es) = filePathsEntries es := rfl
      rw [h3]
      exact listEntries_ok es path relTo depth hd2

theorem listEntries_ok (es : EntryList) (path relTo : Path) (depth : Nat)
    (hde : depth + dirDepthEntries es ≤ 100) :
    _listDirectoryEntries true 100 es path relTo depth =
      .ok ((filePathsEntries es).map (fun q => (path ++ q).drop relTo.length)) := by
  cases es with
  | nil => rfl
  | cons name child rest =>
      have hm : dirDepthEntries (.cons name child rest) =
          max (dirDepthStep child) (dirDepthEntries rest) := rfl
      rw [hm] at hde
      have hmr := le_max_right (dirDepthStep child) (dirDepthEntries rest)
      have hml := le_max_left (dirDepthStep child) (dirDepthEntries rest)
      have hrest : depth + dirDepthEntries rest ≤ 100 := by omega
      cases child with
      | file b =>
          unfold _listDirectoryEntries
          rw [show (isDirNode (.file b) && true) = false from rfl]
          rw [listEntries_ok rest path relTo depth hrest]
          show Except.ok
              ([(path ++ [name]).drop relTo.length] ++
               (filePathsEntries rest).map (fun q => (path ++ q).drop relTo.length)) = _
          rw [show filePathsEntries (.cons name (.file b) rest) =
                [[name]] ++ filePathsEntries rest from rfl]
          rw [List.map_append]
          rfl
      | dir es2 =>
          have hstep : dirDepthStep (.dir es2) = dirDepth (.dir es2) + 1 := rfl
          rw [hstep] at hml
          have hchild : (depth + 1) + dirDepth (.dir es2) ≤ 100 := by omega
          unfold _listDirectoryEntries
          rw [show (isDirNode (.dir es2) && true) = true from rfl]
          rw [listNode_ok (.dir es2) (path ++ [name]) relTo (depth + 1) rfl hchild]
          rw [listEntries_ok rest path relTo depth hrest]
          show Except.ok
              ((filePaths (.dir es2)).map (fun q => ((path ++ [name]) ++ q).drop relTo.length) ++
               (filePathsEntries rest).map (fun q => (path ++ q).drop relTo.length)) = _
          rw [show filePathsEntries (.cons name (.dir es2) rest) =
                (filePaths (.dir es2)).map (fun q => name :: q) ++ filePathsEntries rest from rfl]
          rw [List.map_append, List.map_map]
          have hfun : ((fun q => (path ++ q).drop relTo.length) ∘ (fun q : Path => name :: q)) =
              (fun q => ((path ++ [name]) ++ q).drop relTo.length) := by
            funext q
            show (path ++ (name :: q)).drop relTo.length =
              ((path ++ [name]) ++ q).drop relTo.length
            rw [List.append_cons]
          rw [hfun]

end

mutual

theorem listNode_err (n : Node) (path relTo : Path) (depth : Nat)
    (hd : depth ≤ 100) (hdeep : 100 < depth + dirDepth n) :
    _listDirectory true 100 n path relTo depth = .error .maxRecursionDepth := by
  cases n with
  | file d =>
      have h0 : dirDepth (.file d) = 0 := rfl
      omega
  | dir es =>
      have hd2 : 100 < depth + dirDepthEntries es := hdeep
      have h1 : ¬ (100 < depth) := by omega
      unfold _listDirectory
      rw [if_neg h1]
      show _listDirectoryEntries true 100 es path relTo depth = _
      exact listEntries_err es path relTo depth hd hd2

theorem listEntries_err (es : EntryList) (path relTo : Path) (depth : Nat)
    (hd : depth ≤ 100) (hdeep : 100 < depth + dirDepthEntries es) :
    _listDirectoryEntries true 100 es path relTo depth = .error .maxRecursionDepth := by
  cases es with
  | nil =>
      have h0 : dirDepthEntries EntryList.nil = 0 := rfl
      omega
  | cons name child rest =>
      have hm : dirDepthEntries (.cons name child rest) =
          max (dirDepthStep child) (dirDepthEntries rest) := rfl
      rw [hm] at hdeep
      cases child with
      | file b =>
          have h0 : dirDepthStep (.file b) = 0 := rfl
          have hrest : 100 < depth + dirDepthEntries rest := by
            rw [h0] at hdeep
            omega
          unfold _listDirectoryEntries
          rw [show (isDirNode (.file b) && true) = false from rfl]
          rw [listEntries_err rest path relTo depth hd hrest]
          rfl
      | dir es2 =>
          have hstep : dirDepthStep (.dir es2) = dirDepth (.dir es2) + 1 := rfl
          rw [hstep] at hdeep
          unfold _listDirectoryEntries
          rw [show (isDirNode (.dir es2) && true) = true from rfl]
          by_cases hc : 100 < (depth + 1) + dirDepth (.dir es2)
          · have herr : _listDirectory true 100 (.dir es2) (path ++ [name]) relTo (depth + 1) =
                .error .maxRecursionDepth := by
              by_cases hstop : 100 < depth + 1
              · unfold _listDirectory
                rw [if_pos hstop]
              · exact listNode_err (.dir es2) (path ++ [name]) relTo (depth + 1)
                  (by omega) hc
            rw [herr]
            rfl
          · have hok := listNode_ok (.dir es2) (path ++ [name]) relTo (depth + 1) rfl (by omega)
            rw [hok]
            have hrest : 100 < depth + dirDepthEntries rest := by
              simp only [Nat.max_def] at hdeep
              split at hdeep <;> omega
            rw [listEntries_err rest path relTo depth hd hrest]
            rfl

end


/-! ## No operation except recursive listing can hit the depth error -/

theorem openForRead_ne_maxrec (h : Handle) (p : Path) :
    openForRead h p ≠ .error .maxRecursionDepth := by
  unfold openForRead
  split
  · simp
  · split
    · simp
    · split <;> simp

theorem _fsMakeDirectory_ne_maxrec (h : Handle) (p : Path) :
    _fsMakeDirectory h p ≠ .error .maxRecursionDepth := by
  unfold _fsMakeDirectory
  split <;> simp

theorem makeDirectory_ne_maxrec (h : Handle) (p : Path) :
    makeDirectory h p ≠ .error .maxRecursionDepth := by
  unfold makeDirectory
  split
  · simp
  · exact _fsMakeDirectory_ne_maxrec h p

theorem buildDirs_ne_maxrec : ∀ (l : List String) (h : Handle) (built : Path),
    buildDirs h l built ≠ .error .maxRecursionDepth
  | [], h, built => by simp [buildDirs]
  | d :: rest, h, built => by
      unfold buildDirs
      split
      · exact buildDirs_ne_maxrec rest _ _
      · rename_i e he
        intro hc
        simp only [Except.error.injEq] at hc
        rw [hc] at he
        exact makeDirectory_ne_maxrec h (built ++ [d]) he

theorem openForWrite_ne_maxrec (h : Handle) (p : Path) (d : Bytes) :
    openForWrite h p d ≠ .error .maxRecursionDepth := by
  unfold openForWrite
  split
  · simp
  · split
    · split <;> simp
    · rename_i e he
      intro hc
      simp only [Except.error.injEq] at hc
      rw [hc] at he
      exact buildDirs_ne_maxrec _ _ _ he

theorem writeIfNonEmpty_ne_maxrec (h : Handle) (p : Path) (d : Bytes) :
    writeIfNonEmpty h d p ≠ .error .maxRecursionDepth := by
  unfold writeIfNonEmpty
  split
  · simp
  · exact openForWrite_ne_maxrec h p d

theorem writeBytesToPath_ne_maxrec (h : Handle) (p : Path) (d : Bytes) :
    writeBytesToPath h p d ≠ .error .maxRecursionDepth := by
  unfold writeBytesToPath _writeFileAtomically
  split
  · split
    · split
      · simp
      · exact writeIfNonEmpty_ne_maxrec h p d
    · simp
    · rename_i e he
      intro hc
      simp only [Except.error.injEq] at hc
      rw [hc] at he
      exact openForRead_ne_maxrec h p he
  · exact writeIfNonEmpty_ne_maxrec h p d

theorem _fsListDirectory_ne_maxrec (h : Handle) (p : Path) :
    _fsListDirectory h p ≠ .error .maxRecursionDepth := by
  unfold _fsListDirectory
  split <;> simp

theorem _fsRemove_ne_maxrec (h : Handle) (p : Path) :
    _fsRemove h p ≠ .error .maxRecursionDepth := by
  unfold _fsRemove
  split
  · split <;> simp
  · simp

theorem _fsRemoveDirectory_ne_maxrec (h : Handle) (p : Path) :
    _fsRemoveDirectory h p ≠ .error .maxRecursionDepth := by
  unfold _fsRemoveDirectory
  split
  · split <;> simp
  · simp

theorem _fsMove_ne_maxrec (h : Handle) (p1 p2 : Path) :
    _fsMove h p1 p2 ≠ .error .maxRecursionDepth := by
  unfold _fsMove
  split
  · split
    · split <;> simp
    · simp
  · simp

theorem pruneAux_ne_maxrec (n : Nat) : ∀ (dir : Path), dir.length ≤ n → ∀ (h : Handle),
    _removeEmptyDirectoriesForPath h dir ≠ .error .maxRecursionDepth := by
  induction n with
  | zero =>
      intro dir hlen h
      have hdir : dir = [] := List.length_eq_zero.mp (Nat.le_zero.mp hlen)
      subst hdir
      unfold _removeEmptyDirectoriesForPath
      split
      · simp
      · split
        · rename_i e he
          intro hc
          simp only [Except.error.injEq] at hc
          rw [hc] at he
          exact _fsListDirectory_ne_maxrec _ _ he
        · split
          · split
            · rename_i e he
              intro hc
              simp only [Except.error.injEq] at hc
              rw [hc] at he
              exact _fsRemoveDirectory_ne_maxrec _ _ he
            · split
              · simp
              · rename_i hne
                simp at hne
          · simp
  | succ n ih =>
      intro dir hlen h
      unfold _removeEmptyDirectoriesForPath
      split
      · simp
      · split
        · rename_i e he
          intro hc
          simp only [Except.error.injEq] at hc
          rw [hc] at he
          exact _fsListDirectory_ne_maxrec _ _ he
        · split
          · split
            · rename_i e he
              intro hc
              simp only [Except.error.injEq] at hc
              rw [hc] at he
              exact _fsRemoveDirectory_ne_maxrec _ _ he
            · rename_i h2 hok
              split
              · simp
              · have hlen2 : dir.dropLast.length ≤ n := by
                  have := List.length_dropLast dir
                  omega
                exact ih dir.dropLast hlen2 h2
          · simp

theorem _removeEmptyDirectoriesForPath_ne_maxrec (h : Handle) (dir : Path) :
    _removeEmptyDirectoriesForPath h dir ≠ .error .maxRecursionDepth :=
  pruneAux_ne_maxrec dir.length dir le_rfl h

theorem pruneParent_ne_maxrec (h : Handle) (p : Path) :
    pruneParent h p ≠ .error .maxRecursionDepth := by
  unfold pruneParent
  split
  · simp
  · exact _removeEmptyDirectoriesForPath_ne_maxrec h p.dropLast

theorem remove_ne_maxrec (h : Handle) (p : Path) :
    remove h p ≠ .error .maxRecursionDepth := by
  unfold remove
  split
  · simp
  · unfold _removeFileForPath
    split
    · simp
    · split
      · rename_i h2 hrem
        exact pruneParent_ne_maxrec h2 p
      · rename_i e he
        intro hc
        simp only [Except.error.injEq] at hc
        rw [hc] at he
        by_cases hid : isDirectory h p = true
        · rw [if_pos hid] at he
          exact _fsRemoveDirectory_ne_maxrec h p he
        · rw [if_neg hid] at he
          exact _fsRemove_ne_maxrec h p he

theorem move_ne_maxrec (h : Handle) (p1 p2 : Path) :
    move h p1 p2 ≠ .error .maxRecursionDepth := by
  unfold move
  split
  · simp
  · split
    · simp
    · exact _fsMove_ne_maxrec h p1 p2

theorem moveWithoutFSModule_ne_maxrec (h : Handle) (p1 p2 : Path) :
    moveWithoutFSModule h p1 p2 ≠ .error .maxRecursionDepth := by
  unfold moveWithoutFSModule
  split
  · simp
  · split
    · simp
    · split
      · exact _fsMove_ne_maxrec h p1 p2
      · simp

theorem readPlist_ne_maxrec {V : Type} (decode : Bytes → Option V) (h : Handle)
    (p : Path) (dflt : Option V) : readPlist decode h p dflt ≠ .error .maxRecursionDepth := by
  unfold readPlist
  split
  · split <;> simp
  · split
    · split <;> simp
    · simp

theorem writePlist_ne_maxrec {V : Type} (encode : V → Option Bytes) (h : Handle)
    (p : Path) (v : V) : writePlist encode h p v ≠ .error .maxRecursionDepth := by
  unfold writePlist
  split
  · exact writeBytesToPath_ne_maxrec h p _
  · simp

theorem listEntriesFalse_ok : ∀ (es : EntryList) (path relTo : Path) (depth : Nat),
    ∃ l, _listDirectoryEntries false 100 es path relTo depth = .ok l
  | .nil, _, _, _ => ⟨[], rfl⟩
  | .cons name child rest, path, relTo, depth => by
      obtain ⟨l, hl⟩ := listEntriesFalse_ok rest path relTo depth
      refine ⟨(path ++ [name]).drop relTo.length :: l, ?_⟩
      unfold _listDirectoryEntries
      rw [show (isDirNode child && false) = false from Bool.and_false _]
      rw [hl]
      rfl

theorem listDirectoryFalse_ne_maxrec (h : Handle) (p : Path) :
    listDirectory h p false ≠ .error .maxRecursionDepth := by
  unfold listDirectory
  split
  · rename_i n hn
    cases n with
    | file d =>
        unfold _listDirectory
        rw [if_neg (by omega : ¬ (100 < 0))]
        simp
    | dir es =>
        unfold _listDirectory
        rw [if_neg (by omega : ¬ (100 < 0))]
        obtain ⟨l, hl⟩ := listEntriesFalse_ok es p p 0
        show _listDirectoryEntries false 100 es p p 0 ≠ _
        rw [hl]
        simp
  · simp

/-- Shared helper: a recursive listing over a subtree whose directory
nesting stays within the depth bound returns exactly its file paths,
relative to the listed directory. -/
theorem listDirectory_ok_of_depth_le (h : Handle) (p : Path) (n : Node)
    (hl : lookupH h p = some n) (hdir : isDirNode n = true) (hdepth : dirDepth n ≤ 100) :
    listDirectory h p true = .ok (filePaths n) := by
  unfold listDirectory
  rw [hl]
  show _listDirectory true 100 n p p 0 = _
  rw [listNode_ok n p p 0 hdir (by omega)]
  have hfun : (fun q : Path => (p ++ q).drop p.length) = fun q => q := by
    funext q
    exact List.drop_left p q
  rw [hfun, List.map_id']

/-! ## The claims -/

/-- Claim C1, counterexample: the round-trip fails for the empty byte
string at an absent path.  The write is skipped entirely (deliberate
policy of `_writeFileAtomically`) and the read then returns None, which
is not the written byte string. -/
theorem C1_write_read_empty_counterexample :
    writeBytesToPath emptyHandle ["a"] [] = .ok emptyHandle ∧
    readBytesFromPath emptyHandle ["a"] ≠ .ok (some ([] : Bytes)) := by
  constructor
  · rfl
  · intro hc
    have h0 : readBytesFromPath emptyHandle ["a"] = .ok none := rfl
    rw [h0] at hc
    simp at hc

/-- Claim C1, amended: for every path `p` and every NONEMPTY byte string
`d`, when `writeBytesToPath p d` succeeds, `readBytesFromPath p` on the
resulting state returns exactly `d`. -/
theorem C1_write_read_roundtrip_amended (h h2 : Handle) (p : Path) (d : Bytes)
    (hd : d ≠ []) (hw : writeBytesToPath h p d = .ok h2) :
    readBytesFromPath h2 p = .ok (some d) := by
  unfold writeBytesToPath _writeFileAtomically at hw
  split at hw
  · split at hw
    · rename_i oldData hor
      split at hw
      · rename_i hde
        simp only [Except.ok.injEq] at hw
        subst hde
        simp [readBytesFromPath, ← hw, hor]
      · unfold writeIfNonEmpty at hw
        rw [if_neg hd] at hw
        exact openForWrite_read h h2 p d hw
    · exact absurd hw (by simp)
    · exact absurd hw (by simp)
  · unfold writeIfNonEmpty at hw
    rw [if_neg hd] at hw
    exact openForWrite_read h h2 p d hw

/-- Witness for the amended claim C1 at a concrete input. -/
theorem C1_write_read_roundtrip_amended_witness :
    ([1] : Bytes) ≠ [] ∧ readBytesFromPath fileAHandle ["a"] = .ok (some [1]) :=
  ⟨by decide,
   C1_write_read_roundtrip_amended emptyHandle fileAHandle ["a"] [1] (by decide) rfl⟩

/-- Claim C2: writing the empty byte string to a non-existent path is a
complete no-op: the handle is returned unchanged, so the path still does
not exist and no file (nor any ancestor directory) is created. -/
theorem C2_write_empty_to_absent_path_noop (h : Handle) (p : Path)
    (habs : existsPath h p = false) :
    writeBytesToPath h p [] = .ok h ∧
    ∀ h2, writeBytesToPath h p [] = .ok h2 → existsPath h2 p = false := by
  have hw : writeBytesToPath h p [] = .ok h := by
    unfold writeBytesToPath _writeFileAtomically
    simp [habs, writeIfNonEmpty]
  refine ⟨hw, fun h2 hw2 => ?_⟩
  rw [hw] at hw2
  simp only [Except.ok.injEq] at hw2
  rw [← hw2]
  exact habs

/-- Witness for claim C2 at a concrete input. -/
theorem C2_write_empty_to_absent_path_noop_witness :
    existsPath emptyHandle ["a"] = false ∧
    writeBytesToPath emptyHandle ["a"] [] = .ok emptyHandle :=
  ⟨rfl, (C2_write_empty_to_absent_path_noop emptyHandle ["a"] rfl).1⟩

/-- Claim C5: opening an archive with no top-level entries synthesizes the
root name "contents"; with exactly one top-level entry that entry's name
becomes the root name; with two or more entries construction fails with
the multiple-roots error. -/
theorem C5_archive_root_name (es : EntryList) :
    (es = .nil → openZip (.dir es) = .ok { root := some "contents", tree := .dir es }) ∧
    (∀ (r : String) (n : Node), es = .cons r n .nil →
        openZip (.dir es) = .ok { root := some r, tree := .dir es }) ∧
    (2 ≤ (entryNames es).length → openZip (.dir es) = .error .multipleRoots) := by
  refine ⟨?_, ?_, ?_⟩
  · intro he; subst he; rfl
  · intro r n he; subst he; rfl
  · intro hlen
    cases es with
    | nil => simp [entryNames] at hlen
    | cons a n rest =>
        cases rest with
        | nil => simp [entryNames] at hlen
        | cons b m rest2 => rfl

/-- Witness for claim C5 at concrete archives with zero, one and two
top-level entries. -/
theorem C5_archive_root_name_witness :
    openZip (.dir .nil) = .ok { root := some "contents", tree := .dir .nil } ∧
    openZip (.dir (.cons "root" (.dir .nil) .nil)) =
      .ok { root := some "root", tree := .dir (.cons "root" (.dir .nil) .nil) } ∧
    openZip (.dir (.cons "a" (.file []) (.cons "b" (.file []) .nil))) =
      .error .multipleRoots :=
  ⟨(C5_archive_root_name .nil).1 rfl,
   (C5_archive_root_name _).2.1 "root" (.dir .nil) rfl,
   (C5_archive_root_name _).2.2 (by decide)⟩

/-- Claim C6 (code bug): with the fs module available, `move` behaves as
claimed (not-found error, already-exists error, and otherwise the content
is relocated); but with the `_NOFS` fallback backend, moving an existing
file to a fresh destination raises `AttributeError` because `_NOFS.move`
calls the non-existent function `os.move`, instead of leaving the source
absent and the destination holding its content. -/
theorem C6_move_file_without_fs_module_bug :
    moveWithoutFSModule fileAHandle ["a"] ["b"] = .error .attributeError ∧
    move fileAHandle ["a"] ["b"] =
      .ok { root := none, tree := .dir (.cons "b" (.file [1]) .nil) } ∧
    move fileAHandle ["x"] ["b"] = .error (.moveSourceDoesNotExist ["x"]) ∧
    move fileAHandle ["a"] ["a"] = .error (.moveDestinationExists ["a"]) :=
  ⟨rfl, rfl, rfl, rfl⟩

/-- Claim C7: opening an absent path for reading returns None (a normal
outcome), never an error. -/
theorem C7_open_read_absent_returns_none (h : Handle) (p : Path)
    (habs : existsPath h p = false) : openForRead h p = .ok none := by
  simp [openForRead, habs]

/-- Witness for claim C7 at a concrete input. -/
theorem C7_open_read_absent_returns_none_witness :
    existsPath emptyHandle ["a"] = false ∧ openForRead emptyHandle ["a"] = .ok none :=
  ⟨rfl, C7_open_read_absent_returns_none emptyHandle ["a"] rfl⟩

/-- Claim C9: `readPlist` returns the supplied default when the path is
absent; fails with the missing-required-file error when the path is
absent and no default was supplied; and when the path holds a file whose
bytes the external decoder rejects, the failure is re-raised uniformly as
the could-not-read error naming the path. -/
theorem C9_readPlist_default_and_corrupt {V : Type} (decode : Bytes → Option V)
    (h : Handle) (p : Path) :
    (∀ d : V, existsPath h p = false → readPlist decode h p (some d) = .ok d) ∧
    (existsPath h p = false → readPlist decode h p none = .error (.missingRequiredFile p)) ∧
    (∀ (b : Bytes) (dflt : Option V), lookupH h p = some (.file b) → decode b = none →
        readPlist decode h p dflt = .error (.couldNotRead p)) := by
  refine ⟨?_, ?_, ?_⟩
  · intro d habs; simp [readPlist, habs]
  · intro habs; simp [readPlist, habs]
  · intro b dflt hl hdec
    have hex : existsPath h p = true := by simp [existsPath, hl]
    have hor : openForRead h p = .ok (some b) := by
      simp [openForRead, existsPath, isDirectory, hl]
    simp [readPlist, hex, hor, hdec]

/-- Witness for claim C9 at concrete inputs (decoder that always fails). -/
theorem C9_readPlist_default_and_corrupt_witness :
    readPlist (fun _ : Bytes => (none : Option Nat)) emptyHandle ["a"] (some 7) = .ok 7 ∧
    readPlist (fun _ : Bytes => (none : Option Nat)) emptyHandle ["a"] none =
      .error (.missingRequiredFile ["a"]) ∧
    readPlist (fun _ : Bytes => (none : Option Nat)) fileAHandle ["a"] none =
      .error (.couldNotRead ["a"]) :=
  ⟨(C9_readPlist_default_and_corrupt _ emptyHandle ["a"]).1 7 rfl,
   (C9_readPlist_default_and_corrupt _ emptyHandle ["a"]).2.1 rfl,
   (C9_readPlist_default_and_corrupt _ fileAHandle ["a"]).2.2 [1] none rfl rfl⟩

/-- Claim C10: writing the empty byte string over an existing file with
nonempty contents leaves the handle completely unchanged: the file is
neither truncated, emptied nor removed. -/
theorem C10_write_empty_preserves_existing_file (h : Handle) (p : Path) (e : Bytes)
    (hl : lookupH h p = some (.file e)) (hne : e ≠ []) :
    writeBytesToPath h p [] = .ok h := by
  have hex : existsPath h p = true := by simp [existsPath, hl]
  have hor : openForRead h p = .ok (some e) := by
    simp [openForRead, existsPath, isDirectory, hl]
  have hnee : ([] : Bytes) ≠ e := fun hh => hne hh.symm
  unfold writeBytesToPath _writeFileAtomically
  simp [hex, hor, hnee, writeIfNonEmpty]

/-- Witness for claim C10 at a concrete input. -/
theorem C10_write_empty_preserves_existing_file_witness :
    lookupH fileAHandle ["a"] = some (.file [1]) ∧
    writeBytesToPath fileAHandle ["a"] [] = .ok fileAHandle :=
  ⟨rfl, C10_write_empty_preserves_existing_file fileAHandle ["a"] [1] rfl (by decide)⟩


/-! ## Removal with cascading prune (claim C4) -/

theorem pruneAux_eq (n : Nat) : ∀ (dir : Path), dir.length ≤ n →
    ∀ (h : Handle) (es : EntryList), dir ≠ [] → lookupH h dir = some (.dir es) →
    _removeEmptyDirectoriesForPath h dir = .ok (pruneUpSpec h dir) := by
  induction n with
  | zero =>
      intro dir hlen h es hne hl
      exact absurd (List.length_eq_zero.mp (Nat.le_zero.mp hlen)) hne
  | succ n ih =>
      intro dir hlen h es hne hl
      have hex : existsPath h dir = true := by simp [existsPath, hl]
      have h1 : ¬ (existsPath h dir = false) := by simp [hex]
      have hld : _fsListDirectory h dir = .ok (entryNames es) := by
        unfold _fsListDirectory
        rw [hl]
      unfold _removeEmptyDirectoriesForPath pruneUpSpec
      rw [if_neg h1, hld, dif_neg hne, hl]
      cases es with
      | nil =>
          have hsome : (deleteAt h.tree (_fsRootPath h dir)).isSome := by
            apply deleteAt_isSome _ _ (_fsRootPath_ne_nil h dir hne)
            have hl2 : lookup h.tree (_fsRootPath h dir) = some (.dir .nil) := hl
            rw [hl2]
            rfl
          obtain ⟨t, ht⟩ := Option.isSome_iff_exists.mp hsome
          have hrd : _fsRemoveDirectory h dir = .ok { h with tree := t } := by
            unfold _fsRemoveDirectory
            rw [hl]
            show (match deleteAt h.tree (_fsRootPath h dir) with
                  | some t2 => Except.ok { h with tree := t2 }
                  | none => Except.error Err.backendError) = _
            rw [ht]
          rw [hrd, ht]
          show (if hne2 : dir.dropLast = [] then Except.ok { h with tree := t }
                else _removeEmptyDirectoriesForPath { h with tree := t } dir.dropLast) = _
          by_cases hdl : dir.dropLast = []
          · rw [dif_pos hdl, hdl]
            have hbase : pruneUpSpec { h with tree := t } [] = { h with tree := t } := by
              unfold pruneUpSpec
              simp
            show Except.ok { h with tree := t } = Except.ok (pruneUpSpec { h with tree := t } [])
            rw [hbase]
          · rw [dif_neg hdl]
            obtain ⟨c, hc⟩ := _fsRootPath_dropLast h dir hne
            obtain ⟨es2, hes2⟩ := lookup_deleteAt_parent (_fsRootPath h dir.dropLast) c h.tree t
              (by rw [← hc]; exact ht)
            have hlh : lookupH { h with tree := t } dir.dropLast = some (.dir es2) := hes2
            have hlen2 : dir.dropLast.length ≤ n := by
              have := List.length_dropLast dir
              have := List.length_pos.mpr hne
              omega
            exact ih dir.dropLast hlen2 { h with tree := t } es2 hdl hlh
      | cons name child rest => rfl

/-- Claim C4: `remove` is a no-op when the path does not exist; otherwise
it removes the file or (recursively) the directory at the path and then
removes each ancestor directory that has become empty, walking upward and
stopping at the first non-empty ancestor or at the bundle root, which is
itself never removed.  Formally, `remove` equals the spec-side
`removeSpec` (delete, then `pruneUpSpec`). -/
theorem C4_remove_prunes_empty_ancestors (h : Handle) (p : Path) (hp : p ≠ []) :
    remove h p = .ok (removeSpec h p) := by
  unfold remove removeSpec
  by_cases hex : existsPath h p = false
  · rw [if_pos hex, if_pos hex]
  · rw [if_neg hex, if_neg hex]
    have hex2 : existsPath h p = true := by
      cases hexv : existsPath h p
      · exact absurd hexv hex
      · rfl
    obtain ⟨m, hm⟩ := (existsPath_iff h p).mp hex2
    have hrne := _fsRootPath_ne_nil h p hp
    have hsome : (deleteAt h.tree (_fsRootPath h p)).isSome := by
      apply deleteAt_isSome _ _ hrne
      have hm2 : lookup h.tree (_fsRootPath h p) = some m := hm
      rw [hm2]
      rfl
    obtain ⟨t, ht⟩ := Option.isSome_iff_exists.mp hsome
    unfold _removeFileForPath
    rw [if_neg hex]
    have hstep : (if isDirectory h p then _fsRemoveDirectory h p else _fsRemove h p) =
        .ok { h with tree := t } := by
      cases m with
      | dir es =>
          have hid : isDirectory h p = true := by simp [isDirectory, hm]
          rw [if_pos hid]
          unfold _fsRemoveDirectory
          rw [hm]
          show (match deleteAt h.tree (_fsRootPath h p) with
                | some t2 => Except.ok { h with tree := t2 }
                | none => Except.error Err.backendError) = _
          rw [ht]
      | file d =>
          have hid : isDirectory h p = false := by simp [isDirectory, hm]
          rw [if_neg (by simp [hid])]
          unfold _fsRemove
          rw [hm]
          show (match deleteAt h.tree (_fsRootPath h p) with
                | some t2 => Except.ok { h with tree := t2 }
                | none => Except.error Err.backendError) = _
          rw [ht]
    rw [hstep, ht]
    show pruneParent { h with tree := t } p = .ok (pruneUpSpec { h with tree := t } p.dropLast)
    unfold pruneParent
    by_cases hdl : p.dropLast = []
    · rw [if_pos hdl, hdl]
      have hbase : pruneUpSpec { h with tree := t } [] = { h with tree := t } := by
        unfold pruneUpSpec
        simp
      rw [hbase]
    · rw [if_neg hdl]
      obtain ⟨c, hc⟩ := _fsRootPath_dropLast h p hp
      obtain ⟨es2, hes2⟩ := lookup_deleteAt_parent (_fsRootPath h p.dropLast) c h.tree t
        (by rw [← hc]; exact ht)
      have hlh : lookupH { h with tree := t } p.dropLast = some (.dir es2) := hes2
      exact pruneAux_eq p.dropLast.length p.dropLast le_rfl { h with tree := t } es2 hdl hlh

/-- Witness for claim C4: removing the file `a/b` of the concrete bundle
(whose directory `a` thereby becomes empty and is pruned, while the
sibling file `d` and the bundle root survive). -/
theorem C4_remove_prunes_empty_ancestors_witness :
    (["a", "b"] : Path) ≠ [] ∧
    remove pruneHandle ["a", "b"] = .ok (removeSpec pruneHandle ["a", "b"]) :=
  ⟨by decide, C4_remove_prunes_empty_ancestors pruneHandle ["a", "b"] (by decide)⟩


/-- Claim C3: recursive listing of a tree whose directory nesting is
exactly 100 levels deep succeeds, one nested 101 levels deep fails with
the recursion-limit error, and no other facade operation can ever return
that error. -/
theorem C3_recursion_depth_bound :
    (∀ (h : Handle) (p : Path) (n : Node), lookupH h p = some n → dirDepth n = 100 →
        listDirectory h p true = .ok (filePaths n)) ∧
    (∀ (h : Handle) (p : Path) (n : Node), lookupH h p = some n → dirDepth n = 101 →
        listDirectory h p true = .error .maxRecursionDepth) ∧
    (∀ (h : Handle) (p : Path), openForRead h p ≠ .error .maxRecursionDepth) ∧
    (∀ (h : Handle) (p : Path), readBytesFromPath h p ≠ .error .maxRecursionDepth) ∧
    (∀ (h : Handle) (p : Path) (d : Bytes), writeBytesToPath h p d ≠ .error .maxRecursionDepth) ∧
    (∀ (h : Handle) (p : Path), makeDirectory h p ≠ .error .maxRecursionDepth) ∧
    (∀ (h : Handle) (p : Path), remove h p ≠ .error .maxRecursionDepth) ∧
    (∀ (h : Handle) (p1 p2 : Path), move h p1 p2 ≠ .error .maxRecursionDepth) ∧
    (∀ (h : Handle) (p1 p2 : Path), moveWithoutFSModule h p1 p2 ≠ .error .maxRecursionDepth) ∧
    (∀ (V : Type) (decode : Bytes → Option V) (h : Handle) (p : Path) (dflt : Option V),
        readPlist decode h p dflt ≠ .error .maxRecursionDepth) ∧
    (∀ (V : Type) (encode : V → Option Bytes) (h : Handle) (p : Path) (v : V),
        writePlist encode h p v ≠ .error .maxRecursionDepth) ∧
    (∀ (h : Handle) (p : Path), listDirectory h p false ≠ .error .maxRecursionDepth) := by
  refine ⟨?_, ?_, openForRead_ne_maxrec, openForRead_ne_maxrec, writeBytesToPath_ne_maxrec,
    makeDirectory_ne_maxrec, remove_ne_maxrec, move_ne_maxrec, moveWithoutFSModule_ne_maxrec,
    fun V => readPlist_ne_maxrec, fun V => writePlist_ne_maxrec, listDirectoryFalse_ne_maxrec⟩
  · intro h p n hl hd
    have hdir : isDirNode n = true := by
      cases n with
      | file d => simp [dirDepth] at hd
      | dir es => rfl
    exact listDirectory_ok_of_depth_le h p n hl hdir (by omega)
  · intro h p n hl hd
    cases n with
    | file d => simp [dirDepth] at hd
    | dir es =>
        unfold listDirectory
        rw [hl]
        show _listDirectory true 100 (.dir es) p p 0 = _
        exact listNode_err (.dir es) p p 0 (by omega) (by omega)

theorem nest_shape : ∀ k, ∃ es, nest k = Node.dir es
  | 0 => ⟨_, rfl⟩
  | k + 1 => ⟨_, rfl⟩

theorem dirDepth_nest : ∀ k, dirDepth (nest k) = k
  | 0 => rfl
  | k + 1 => by
      obtain ⟨es, hes⟩ := nest_shape k
      show max (dirDepthStep (nest k)) (dirDepthEntries .nil) = k + 1
      rw [hes]
      rw [show dirDepthStep (.dir es) = dirDepth (.dir es) + 1 from rfl]
      rw [← hes, dirDepth_nest k]
      simp [dirDepthEntries]

/-- Witness for claim C3: the concrete 100- and 101-deep chains. -/
theorem C3_recursion_depth_bound_witness :
    listDirectory (nestHandle 100) ["p"] true = .ok (filePaths (nest 100)) ∧
    listDirectory (nestHandle 101) ["p"] true = .error .maxRecursionDepth :=
  ⟨C3_recursion_depth_bound.1 (nestHandle 100) ["p"] (nest 100) rfl (dirDepth_nest 100),
   C3_recursion_depth_bound.2.1 (nestHandle 101) ["p"] (nest 101) rfl (dirDepth_nest 101)⟩

/-- Claim C8: a recursive listing of a directory returns exactly the file
paths of its subtree, relative to it (directories are descended into, but
never returned themselves); on the concrete tree `p/a`, `p/b/c` the
result is exactly `a, b/c` in listing order, and `b` is not in it. -/
theorem C8_recursive_listing_file_paths (h : Handle) (p : Path) (n : Node)
    (hl : lookupH h p = some n) (hdir : isDirNode n = true) (hdepth : dirDepth n ≤ 100) :
    listDirectory h p true = .ok (filePaths n) ∧
    listDirectory abcHandle ["p"] true = .ok [["a"], ["b", "c"]] ∧
    ["b"] ∉ [[("a" : String)], ["b", "c"]] :=
  ⟨listDirectory_ok_of_depth_le h p n hl hdir hdepth, rfl, by decide⟩

/-- Witness for claim C8 at the concrete tree of the claim. -/
theorem C8_recursive_listing_file_paths_witness :
    listDirectory abcHandle ["p"] true = .ok (filePaths abcTree) ∧
    filePaths abcTree = [["a"], ["b", "c"]] :=
  ⟨(C8_recursive_listing_file_paths abcHandle ["p"] abcTree rfl rfl (by decide)).1, rfl⟩

end Ufo
